import Mathlib

/-!
Shallow embedding of `roboticstoolbox/robot/ERobot.py` (the kinematic-tree
core of the repository): the `Link` data model, the `get_path` resolver with
its name-keyed cache, the velocity-damper constraint generator
`link_collision_damper`, the recursive Newton-Euler routine `rne`
(modelled symbolically so that the data flow of transforms is visible),
the gutted live body of `BaseERobot.__init__`, the end/start designator
resolution of `_get_limit_links`, and the `ERobot2.base` property.
External numeric types (SE3 tool transforms) are modelled by a free
composition monoid `Tool`; exact rationals stand in for floats where the
claims are about exact algebraic identities.
-/

/-- Tool transforms (spatialmath `SE3` values attached to grippers) are
external opaque values for this core; we model them as words of a free
monoid, with `toolId` standing for the identity transform `SE3()`. -/
abbrev Tool : Type := List String

/-- Identity tool transform, `SE3()` in the source. -/
def toolId : Tool := []

/-- One rigid link of the mechanism (`roboticstoolbox.robot.Link.Link`,
as used by `ERobot.py`): a unique `name`, the `isjoint` flag, the optional
joint index `jindex`, the parent reference (modelled as an index into the
robot's link sequence, `none` for the base link), and the list of attached
collision shapes (modelled by opaque shape identifiers). -/
structure Link where
  name : String
  isjoint : Bool
  jindex : Option Nat
  parent : Option Nat
  collision : List Nat
deriving DecidableEq, Repr

/-- Gripper object (`roboticstoolbox.robot.Gripper.Gripper`): its name, the
indices of its links (head = the gripper root `gripper.links[0]`), and its
fixed `tool` transform. -/
structure GripperM where
  name : String
  links : List Nat
  tool : Tool
deriving DecidableEq

/-- The robot aggregate as `BaseERobot` methods see it: the link sequence
(`self.links`), the gripper list (`self.grippers`), the end-effector link
list (`self.ee_links`) and the base link (`self.base_link`). -/
structure ERobotM where
  links : List Link
  grippers : List GripperM
  ee_links : List Nat
  base_link : Nat
deriving DecidableEq

/-- Name of link `i` (out-of-range indices give the empty name; all claims
are about in-range links). -/
def nameOf (r : ERobotM) (i : Nat) : String :=
  ((r.links.get? i).map (fun lk => lk.name)).getD ""

/-- Parent reference of link `i`, `link.parent` in the source. -/
def parentOf (r : ERobotM) (i : Nat) : Option Nat :=
  (r.links.get? i).bind (fun lk => lk.parent)

/-- Joint flag of link `i`, `link.isjoint` in the source. -/
def isjointOf (r : ERobotM) (i : Nat) : Bool :=
  ((r.links.get? i).map (fun lk => lk.isjoint)).getD false

/-- Well-formedness of the stored link order: every parent reference points
strictly earlier in the sequence.  This is the depth-first (parent before
child) order the tree builder is specified to produce, and it is what makes
the parent walk in `get_path` terminate (the parent graph is acyclic). -/
def wfB (r : ERobotM) : Bool :=
  (List.range r.links.length).all (fun i =>
    match parentOf r i with
    | none => true
    | some p => decide (p < i))

theorem wf_spec {r : ERobotM} (h : wfB r = true) :
    ∀ i p, parentOf r i = some p → p < i := by
  intro i p hp
  cases hg : r.links.get? i with
  | none => rw [parentOf, hg] at hp; simp at hp
  | some lk =>
    obtain ⟨hi, -⟩ := List.get?_eq_some.mp hg
    have := (List.all_eq_true.mp h) i (List.mem_range.mpr hi)
    rw [hp] at this
    exact of_decide_eq_true this

/-- Ancestor chain of link `cur` computed with explicit fuel: the list
`[cur, parent cur, parent (parent cur), …]` up to the root. -/
def chainFrom (r : ERobotM) : Nat → Nat → List Nat
  | 0, _ => []
  | fuel + 1, cur =>
      cur ::
        (match parentOf r cur with
        | none => []
        | some p => chainFrom r fuel p)

/-- Full ancestor chain of link `i` (the fuel `i + 1` always suffices for a
well-formed robot, where parents point strictly earlier). -/
def ancestorChain (r : ERobotM) (i : Nat) : List Nat :=
  chainFrom r (i + 1) i

theorem chainFrom_stable (r : ERobotM) (hwf : wfB r = true) :
    ∀ cur f₁ f₂, cur < f₁ → cur < f₂ →
      chainFrom r f₁ cur = chainFrom r f₂ cur := by
  intro cur
  induction cur using Nat.strong_induction_on with
  | _ cur ih =>
    intro f₁ f₂ h₁ h₂
    match f₁, h₁, f₂, h₂ with
    | g₁ + 1, h₁, g₂ + 1, h₂ =>
      simp only [chainFrom]
      cases hp : parentOf r cur with
      | none => rfl
      | some p =>
        have hpc : p < cur := wf_spec hwf cur p hp
        simp only []
        rw [ih p hpc g₁ g₂ (Nat.lt_of_lt_of_le hpc (Nat.lt_succ_iff.mp h₁))
            (Nat.lt_of_lt_of_le hpc (Nat.lt_succ_iff.mp h₂))]

/-- Combined path / joint-count result together with the tool offset, the
tuple `(path, n, tool)` returned by `ERobot.get_path`. -/
structure PathRes where
  path : List Nat
  jcount : Nat
  tool : Tool
deriving DecidableEq

/-- Loop body of `ERobot.get_path` (lines 522-538): starting at `end`,
follow parent references until `start` is reached, appending each visited
link and counting joints; `none` models the `ValueError` raised when a
`None` parent is met first.  The accumulator `path` holds the visited links
most-recent-first, so that at termination it equals the Python list after
its final `path.reverse()`. -/
def walkAux (r : ERobotM) : Nat → Nat → Nat → List Nat → Nat → Option (List Nat × Nat)
  | 0, _, _, _, _ => none
  | fuel + 1, cur, start, path, n =>
      if cur = start then some (path, n)
      else
        match parentOf r cur with
        | none => none
        | some p =>
            walkAux r fuel p start (p :: path)
              (n + (if isjointOf r p then 1 else 0))

/-- Parent-chain walk of `ERobot.get_path` from `endI` up to `startI`,
including the initial append of `end` itself and its joint count. -/
def walkPath (r : ERobotM) (endI startI : Nat) : Option (List Nat × Nat) :=
  walkAux r (endI + 1) endI startI [endI]
    (if isjointOf r endI then 1 else 0)

/-- Cache lookup, `self._path_cache[start.name][end.name]` flattened to an
association list keyed by the `(start name, end name)` pair. -/
def lookupC (c : List ((String × String) × PathRes)) (k : String × String) :
    Option PathRes :=
  (c.find? (fun e => decide (e.1 = k))).map (fun e => e.2)

/-- Transliteration of `ERobot.get_path` (lines 491-547).  The cache is
consulted first (keyed by the two link names); on a miss the parent chain
is walked, the tool defaults to the identity when no gripper tool was
resolved, and the tuple is stored.  The returned `Bool` records whether the
tree walk was performed (`true` on a miss), and `none` models the
`ValueError` when no path exists. -/
def get_path (r : ERobotM) (cache : List ((String × String) × PathRes))
    (endI startI : Nat) (toolOpt : Option Tool) :
    Option (PathRes × List ((String × String) × PathRes) × Bool) :=
  match lookupC cache (nameOf r startI, nameOf r endI) with
  | some res => some (res, cache, false)
  | none =>
      match walkPath r endI startI with
      | none => none
      | some (p, n) =>
          some (⟨p, n, toolOpt.getD toolId⟩,
            ((nameOf r startI, nameOf r endI), ⟨p, n, toolOpt.getD toolId⟩) :: cache,
            true)

/-- Prefix of a list up to and including the first occurrence of `x`. -/
def takeUntilIncl (x : Nat) : List Nat → List Nat
  | [] => []
  | a :: as => if a = x then [a] else a :: takeUntilIncl x as

/-- Number of joint links among the links listed in `l`. -/
def countJoints (r : ERobotM) (l : List Nat) : Nat :=
  (l.filter (fun i => isjointOf r i)).length

theorem ancestorChain_eq (r : ERobotM) (cur : Nat) :
    ancestorChain r cur =
      cur ::
        (match parentOf r cur with
        | none => []
        | some p => chainFrom r cur p) := rfl

theorem takeUntilIncl_cons (x a : Nat) (l : List Nat) :
    takeUntilIncl x (a :: l) =
      a :: (if a = x then [] else takeUntilIncl x l) := by
  by_cases h : a = x <;> simp [takeUntilIncl, h]

theorem countJoints_cons (r : ERobotM) (a : Nat) (l : List Nat) :
    countJoints r (a :: l) =
      (if isjointOf r a then 1 else 0) + countJoints r l := by
  by_cases h : isjointOf r a <;>
    simp [countJoints, List.filter, h, Nat.add_comm]

theorem takeUntil_chain_head (r : ERobotM) (startI cur : Nat) :
    ∃ t, takeUntilIncl startI (ancestorChain r cur) = cur :: t ∧
      t = (takeUntilIncl startI (ancestorChain r cur)).tail := by
  rw [ancestorChain_eq, takeUntilIncl_cons]
  exact ⟨_, rfl, rfl⟩

theorem chain_step (r : ERobotM) (hwf : wfB r = true) {cur p : Nat}
    (hp : parentOf r cur = some p) :
    ancestorChain r cur = cur :: ancestorChain r p := by
  have hpc : p < cur := wf_spec hwf cur p hp
  rw [ancestorChain_eq, hp]
  simp only [List.cons.injEq, true_and]
  exact chainFrom_stable r hwf p cur (p + 1) hpc (Nat.lt_succ_self p)

theorem walkAux_spec (r : ERobotM) (hwf : wfB r = true) (startI : Nat) :
    ∀ fuel cur path n, cur < fuel → startI ∈ ancestorChain r cur →
      walkAux r fuel cur startI path n =
        some (((takeUntilIncl startI (ancestorChain r cur)).tail).reverse ++ path,
          n + countJoints r ((takeUntilIncl startI (ancestorChain r cur)).tail)) := by
  intro fuel
  induction fuel with
  | zero => intro cur path n h; exact absurd h (Nat.not_lt_zero cur)
  | succ f ih =>
    intro cur path n hlt hmem
    rw [walkAux]
    by_cases hcs : cur = startI
    · subst hcs
      obtain ⟨t, ht, -⟩ := takeUntil_chain_head r cur cur
      rw [ancestorChain_eq, takeUntilIncl_cons] at *
      simp [countJoints]
    · rw [if_neg hcs]
      cases hp : parentOf r cur with
      | none =>
        exfalso
        rw [ancestorChain_eq, hp] at hmem
        simp at hmem
        exact hcs hmem.symm
      | some p =>
        have hpc : p < cur := wf_spec hwf cur p hp
        have hchain := chain_step r hwf hp
        have hmem' : startI ∈ ancestorChain r p := by
          rw [hchain] at hmem
          rcases List.mem_cons.mp hmem with h | h
          · exact absurd h.symm hcs
          · exact h
        have hpf : p < f :=
          Nat.lt_of_lt_of_le hpc (Nat.lt_succ_iff.mp hlt)
        dsimp only
        rw [ih p (p :: path) (n + if isjointOf r p then 1 else 0) hpf hmem']
        rw [hchain, takeUntilIncl_cons]
        rw [if_neg (fun h => hcs h)]
        obtain ⟨t, ht, htl⟩ := takeUntil_chain_head r startI p
        rw [ht]
        simp only [List.tail_cons, List.reverse_cons, List.append_assoc,
          List.cons_append, List.nil_append, countJoints_cons, Nat.add_assoc]

theorem walkAux_none (r : ERobotM) (hwf : wfB r = true) (startI : Nat) :
    ∀ fuel cur path n, cur < fuel → startI ∉ ancestorChain r cur →
      walkAux r fuel cur startI path n = none := by
  intro fuel
  induction fuel with
  | zero => intro cur path n h; exact absurd h (Nat.not_lt_zero cur)
  | succ f ih =>
    intro cur path n hlt hmem
    have hcs : cur ≠ startI := by
      intro h
      apply hmem
      rw [ancestorChain_eq, h]
      exact List.mem_cons_self _ _
    rw [walkAux, if_neg hcs]
    cases hp : parentOf r cur with
    | none => rfl
    | some p =>
      have hpc : p < cur := wf_spec hwf cur p hp
      have hchain := chain_step r hwf hp
      have hmem' : startI ∉ ancestorChain r p := by
        intro h
        exact hmem (by rw [hchain]; exact List.mem_cons_of_mem _ h)
      exact ih p (p :: path) _
        (Nat.lt_of_lt_of_le hpc (Nat.lt_succ_iff.mp hlt)) hmem'

theorem walkPath_spec (r : ERobotM) (hwf : wfB r = true) (endI startI : Nat)
    (hmem : startI ∈ ancestorChain r endI) :
    walkPath r endI startI =
      some ((takeUntilIncl startI (ancestorChain r endI)).reverse,
        countJoints r (takeUntilIncl startI (ancestorChain r endI))) := by
  rw [walkPath,
    walkAux_spec r hwf startI (endI + 1) endI [endI] _ (Nat.lt_succ_self endI) hmem]
  obtain ⟨t, ht, -⟩ := takeUntil_chain_head r startI endI
  rw [ht]
  simp only [List.tail_cons, List.reverse_cons, countJoints_cons]

theorem walkPath_none_iff (r : ERobotM) (hwf : wfB r = true) (endI startI : Nat) :
    walkPath r endI startI = none ↔ startI ∉ ancestorChain r endI := by
  constructor
  · intro h hmem
    rw [walkPath_spec r hwf endI startI hmem] at h
    exact Option.noConfusion h
  · intro hmem
    exact walkAux_none r hwf startI (endI + 1) endI [endI] _
      (Nat.lt_succ_self endI) hmem

theorem lookupC_nil (k : String × String) : lookupC [] k = none := rfl

theorem lookupC_cons_self (k : String × String) (v : PathRes)
    (c : List ((String × String) × PathRes)) :
    lookupC ((k, v) :: c) k = some v := by
  simp [lookupC, List.find?]

/-- Docstring example chain of `ERobot.py` (lines 85-91): `link1`, `link2`,
`link3` are joint links and `ee` is a fixed link, chained sequentially. -/
def demoR : ERobotM :=
  { links :=
      [ { name := "link1", isjoint := true, jindex := none, parent := none,
          collision := [] },
        { name := "link2", isjoint := true, jindex := none, parent := some 0,
          collision := [] },
        { name := "link3", isjoint := true, jindex := none, parent := some 1,
          collision := [] },
        { name := "ee", isjoint := false, jindex := none, parent := some 2,
          collision := [] } ],
    grippers := [],
    ee_links := [3],
    base_link := 0 }

/-- C1: for every tree (in depth-first parent-before-child order) and every
pair of links such that `start` is an ancestor of `end` or equal to it,
`get_path` returns the tuple `(path, joint_count, tool)` where `path` is
exactly the parent chain from `end` up to `start` reversed into base-to-tip
order, `joint_count` is the number of links on that path with
`isjoint = true`, and the tool defaults to the identity transform; for the
4-link sequential chain of the docstring the path from the base is
`[link1, link2, link3, ee]` (see the witness). -/
theorem get_path_parent_chain (r : ERobotM) (endI startI : Nat)
    (toolOpt : Option Tool) (hwf : wfB r = true)
    (hmem : startI ∈ ancestorChain r endI) :
    get_path r [] endI startI toolOpt =
      some (⟨(takeUntilIncl startI (ancestorChain r endI)).reverse,
             countJoints r (takeUntilIncl startI (ancestorChain r endI)),
             toolOpt.getD toolId⟩,
        [((nameOf r startI, nameOf r endI),
          ⟨(takeUntilIncl startI (ancestorChain r endI)).reverse,
           countJoints r (takeUntilIncl startI (ancestorChain r endI)),
           toolOpt.getD toolId⟩)],
        true) := by
  rw [get_path, lookupC_nil, walkPath_spec r hwf endI startI hmem]

/-- Witness for C1 at the docstring's 4-link chain: the resolved path from
the base is `[link1, link2, link3, ee]` (indices `[0, 1, 2, 3]`) with three
joints and the identity tool. -/
theorem get_path_parent_chain_witness :
    wfB demoR = true ∧ 0 ∈ ancestorChain demoR 3 ∧
      get_path demoR [] 3 0 none =
        some (⟨[0, 1, 2, 3], 3, toolId⟩,
          [(("link1", "ee"), ⟨[0, 1, 2, 3], 3, toolId⟩)], true) :=
  ⟨by decide, by decide,
    (get_path_parent_chain demoR 3 0 none (by decide) (by decide)).trans
      (by decide)⟩

/-- Cache entries that agree with what an actual tree walk would produce
(the only entries `get_path` ever stores, given the same deterministic tool
resolution). -/
def Consistent (r : ERobotM) (cache : List ((String × String) × PathRes))
    (toolOpt : Option Tool) : Prop :=
  ∀ sI eI res, lookupC cache (nameOf r sI, nameOf r eI) = some res →
    walkPath r eI sI = some (res.path, res.jcount) ∧
      res.tool = toolOpt.getD toolId

/-- C2: a second call of `get_path` with the same `(start name, end name)`
pair returns the stored tuple of the first successful call without
re-walking the parent chain (the returned walk flag is `false`), and the
value is identical whether or not the cache is consulted: it always equals
the result of the plain parent-chain walk plus the deterministic tool
default. -/
theorem get_path_cache_hit (r : ERobotM)
    (cache : List ((String × String) × PathRes)) (endI startI : Nat)
    (toolOpt : Option Tool) (res : PathRes)
    (cache2 : List ((String × String) × PathRes)) (w : Bool)
    (hcons : Consistent r cache toolOpt)
    (h1 : get_path r cache endI startI toolOpt = some (res, cache2, w)) :
    get_path r cache2 endI startI toolOpt = some (res, cache2, false) ∧
      walkPath r endI startI = some (res.path, res.jcount) ∧
      res.tool = toolOpt.getD toolId := by
  cases hl : lookupC cache (nameOf r startI, nameOf r endI) with
  | some res0 =>
    have hval : get_path r cache endI startI toolOpt =
        some (res0, cache, false) := by
      rw [get_path, hl]
    have heq := hval.symm.trans h1
    simp only [Option.some.injEq, Prod.mk.injEq] at heq
    obtain ⟨hres, hc, hw⟩ := heq
    subst hres
    subst hc
    obtain ⟨hwalk, htool⟩ := hcons startI endI res0 hl
    exact ⟨by rw [get_path, hl], hwalk, htool⟩
  | none =>
    cases hw : walkPath r endI startI with
    | none =>
      have hval : get_path r cache endI startI toolOpt = none := by
        rw [get_path, hl, hw]
      rw [hval] at h1
      exact Option.noConfusion h1
    | some pn =>
      obtain ⟨p, n⟩ := pn
      have hval : get_path r cache endI startI toolOpt =
          some (⟨p, n, toolOpt.getD toolId⟩,
            ((nameOf r startI, nameOf r endI),
              (⟨p, n, toolOpt.getD toolId⟩ : PathRes)) :: cache, true) := by
        rw [get_path, hl, hw]
      have heq := hval.symm.trans h1
      simp only [Option.some.injEq, Prod.mk.injEq] at heq
      obtain ⟨hres, hc, -⟩ := heq
      subst hres
      subst hc
      refine ⟨?_, rfl, rfl⟩
      rw [get_path, lookupC_cons_self]

/-- Witness for C2 at the docstring chain: the first call on the empty
cache stores the tuple; re-calling with the resulting cache yields the very
same tuple with the walk flag `false`, matching the plain walk. -/
theorem get_path_cache_hit_witness :
    Consistent demoR [] none ∧
      get_path demoR [] 3 0 none =
        some (⟨[0, 1, 2, 3], 3, toolId⟩,
          [(("link1", "ee"), ⟨[0, 1, 2, 3], 3, toolId⟩)], true) ∧
      (get_path demoR [(("link1", "ee"), ⟨[0, 1, 2, 3], 3, toolId⟩)] 3 0 none =
          some (⟨[0, 1, 2, 3], 3, toolId⟩,
            [(("link1", "ee"), ⟨[0, 1, 2, 3], 3, toolId⟩)], false) ∧
        walkPath demoR 3 0 = some ([0, 1, 2, 3], 3) ∧
        (⟨[0, 1, 2, 3], 3, toolId⟩ : PathRes).tool = (none : Option Tool).getD toolId) := by
  have hcons : Consistent demoR [] none := by
    intro sI eI res h
    rw [lookupC_nil] at h
    exact Option.noConfusion h
  exact ⟨hcons, by decide,
    get_path_cache_hit demoR [] 3 0 none ⟨[0, 1, 2, 3], 3, toolId⟩
      [(("link1", "ee"), ⟨[0, 1, 2, 3], 3, toolId⟩)] true hcons (by decide)⟩

/-- Branched demo robot: links 1 and 2 are siblings, both children of the
base link 0, so there is no ancestor path from link 1 to link 2. -/
def demoBranch : ERobotM :=
  { links :=
      [ { name := "base", isjoint := true, jindex := none, parent := none,
          collision := [] },
        { name := "left", isjoint := true, jindex := none, parent := some 0,
          collision := [] },
        { name := "right", isjoint := true, jindex := none, parent := some 0,
          collision := [] } ],
    grippers := [],
    ee_links := [1, 2],
    base_link := 0 }

/-- C3: on a cache miss, `get_path` raises the "cannot find path" error
(modelled by `none`) exactly when the walk of parent references from `end`
reaches a link with a null parent before reaching `start`, i.e. when
`start` is not an ancestor of (or equal to) `end`; in that case no tuple is
produced and nothing is stored. -/
theorem get_path_no_path_iff (r : ERobotM)
    (cache : List ((String × String) × PathRes)) (endI startI : Nat)
    (toolOpt : Option Tool) (hwf : wfB r = true)
    (hmiss : lookupC cache (nameOf r startI, nameOf r endI) = none) :
    get_path r cache endI startI toolOpt = none ↔
      startI ∉ ancestorChain r endI := by
  rw [get_path, hmiss]
  cases hw : walkPath r endI startI with
  | none =>
    constructor
    · intro _
      exact (walkPath_none_iff r hwf endI startI).mp hw
    · intro _
      rfl
  | some pn =>
    obtain ⟨p, n⟩ := pn
    constructor
    · intro h
      exact Option.noConfusion h
    · intro hmem
      exfalso
      rw [(walkPath_none_iff r hwf endI startI).mpr hmem] at hw
      exact Option.noConfusion hw
/-- Witness for C3 on the branched robot: resolving from `left` (link 1) to
`right` (link 2) fails, because the parent walk from link 2 hits the base's
null parent before ever meeting link 1. -/
theorem get_path_no_path_iff_witness :
    wfB demoBranch = true ∧
      lookupC [] (nameOf demoBranch 1, nameOf demoBranch 2) = none ∧
      (get_path demoBranch [] 2 1 none = none ↔
        1 ∉ ancestorChain demoBranch 2) :=
  ⟨by decide, rfl, get_path_no_path_iff demoBranch [] 2 1 none (by decide) rfl⟩

/-- Three-component vector over exact rationals (the translational part of
world points and velocities in `link_collision_damper`). -/
abbrev V3 : Type := ℚ × ℚ × ℚ

/-- Six-component spatial vector, split as (linear part, angular part). -/
abbrev V6 : Type := V3 × V3

/-- Componentwise difference of 3-vectors. -/
def vsub (a b : V3) : V3 := (a.1 - b.1, a.2.1 - b.2.1, a.2.2 - b.2.2)

/-- Scalar multiple of a 3-vector (`lpTcp / d` is `smul3 (1 / d) lpTcp`). -/
def smul3 (c : ℚ) (v : V3) : V3 := (c * v.1, c * v.2.1, c * v.2.2)

/-- Dot product of 3-vectors. -/
def dot3 (a b : V3) : ℚ := a.1 * b.1 + a.2.1 * b.2.1 + a.2.2 * b.2.2

/-- Zero 3-vector, the angular padding of `norm_h`. -/
def v3zero : V3 := (0, 0, 0)

/-- Dot product of 6-vectors (`norm_h @ shape.v` and `norm_h @ Je` columns). -/
def dot6 (a b : V6) : ℚ := dot3 a.1 b.1 + dot3 a.2 b.2

/-- Result of `shape.closest_point(target, di)` when the shapes interact
within the influence distance: the distance `d`, the world point on the
link's shape `wTlp` and the world point on the target `wTcp`.  A result
beyond `di` is reported as `none` by the external shape library. -/
structure CPRes where
  d : ℚ
  wTlp : V3
  wTcp : V3
deriving DecidableEq

/-- Transliteration of the inner `indiv_calculation` of
`ERobot.link_collision_damper` (lines 596-625): on an interaction, the
separation direction is `lpTcp / d` with `lpTcp = -wTlp + wTcp`, padded by
zero angular components into `norm_h`; the constraint row is `norm_h @ Je`
zero-padded to width `n`, and the bound is
`xi * (d - ds) / (di - ds) + norm_h @ shape.v`.  The external
`closest_point` query and the external Jacobian `jacobe` are inputs
(`cp`, `Je`), keyed by the collision-shape identifier. -/
def indiv_calculation (cp : Nat → Option CPRes) (Je : Nat → List V6)
    (shapeV : V6) (di ds xi : ℚ) (n : Nat) (sid : Nat) :
    Option (List ℚ × ℚ) :=
  match cp sid with
  | none => none
  | some res =>
      let lpTcp := vsub res.wTcp res.wTlp
      let norm := smul3 (1 / res.d) lpTcp
      let norm_h : V6 := (norm, v3zero)
      let dp := dot6 norm_h shapeV
      let row := ((Je sid).map (fun col => dot6 norm_h col)) ++
        List.replicate (n - (Je sid).length) 0
      some (row, xi * (res.d - ds) / (di - ds) + dp)

/-- Accumulation step of the stacking loop of `link_collision_damper`
(lines 636-648): a non-interacting pair contributes nothing; an interacting
pair appends its row to `Ain` and its bound to `bin`, starting the arrays
when they are still `None`. -/
def damperStep (acc : Option (List (List ℚ)) × Option (List ℚ))
    (res : Option (List ℚ × ℚ)) :
    Option (List (List ℚ)) × Option (List ℚ) :=
  match res with
  | none => acc
  | some (row, b) =>
      ((match acc.1 with
        | none => some [row]
        | some rs => some (rs ++ [row])),
       (match acc.2 with
        | none => some [b]
        | some bs => some (bs ++ [b])))

/-- Transliteration of `ERobot.link_collision_damper` (lines 549-650) with
`collision_list = None`, so each link contributes its own collision-shape
list; the loop ranges over the links of the resolved path in order and over
each link's shapes in order (the `j` joint counter of the source only
indexes an explicit `collision_list` and is inert here). -/
def link_collision_damper (links : List Link) (cp : Nat → Option CPRes)
    (Je : Nat → List V6) (shapeV : V6) (di ds xi : ℚ) (n : Nat) :
    Option (List (List ℚ)) × Option (List ℚ) :=
  (links.bind (fun lk => lk.collision)).foldl
    (fun acc sid =>
      damperStep acc (indiv_calculation cp Je shapeV di ds xi n sid))
    (none, none)

/-- Stacked form described by the spec: the rows of all interacting pairs
in iteration order, or the no-active-constraint outcome `(None, None)` when
no pair produced a row. -/
def stackSpec (l : List (List ℚ × ℚ)) :
    Option (List (List ℚ)) × Option (List ℚ) :=
  if l = [] then (none, none)
  else (some (l.map Prod.fst), some (l.map Prod.snd))

theorem damperStep_none (acc : Option (List (List ℚ)) × Option (List ℚ)) :
    damperStep acc none = acc := rfl

theorem damperStep_some_some (rs : List (List ℚ)) (bs : List ℚ)
    (row : List ℚ) (b : ℚ) :
    damperStep (some rs, some bs) (some (row, b)) =
      (some (rs ++ [row]), some (bs ++ [b])) := rfl

theorem damperStep_none_none (row : List ℚ) (b : ℚ) :
    damperStep (none, none) (some (row, b)) = (some [row], some [b]) := rfl

theorem damper_fold_some (f : Nat → Option (List ℚ × ℚ)) :
    ∀ (sids : List Nat) (rs : List (List ℚ)) (bs : List ℚ),
      sids.foldl (fun acc sid => damperStep acc (f sid)) (some rs, some bs) =
        (some (rs ++ (sids.filterMap f).map Prod.fst),
          some (bs ++ (sids.filterMap f).map Prod.snd)) := by
  intro sids
  induction sids with
  | nil => intro rs bs; simp [List.filterMap]
  | cons a as ih =>
    intro rs bs
    simp only [List.foldl_cons]
    cases hf : f a with
    | none =>
      rw [damperStep_none, ih rs bs]
      simp [List.filterMap_cons, hf]
    | some rb =>
      obtain ⟨row, b⟩ := rb
      rw [damperStep_some_some, ih (rs ++ [row]) (bs ++ [b])]
      simp [List.filterMap_cons, hf]

theorem damper_fold_spec (f : Nat → Option (List ℚ × ℚ)) :
    ∀ sids : List Nat,
      sids.foldl (fun acc sid => damperStep acc (f sid)) (none, none) =
        stackSpec (sids.filterMap f) := by
  intro sids
  induction sids with
  | nil => simp [stackSpec]
  | cons a as ih =>
    simp only [List.foldl_cons]
    cases hf : f a with
    | none =>
      rw [damperStep_none, ih]
      simp [List.filterMap_cons, hf]
    | some rb =>
      obtain ⟨row, b⟩ := rb
      rw [damperStep_none_none, damper_fold_some f as [row] [b]]
      simp [List.filterMap_cons, hf, stackSpec]

theorem indiv_none_iff (cp : Nat → Option CPRes) (Je : Nat → List V6)
    (shapeV : V6) (di ds xi : ℚ) (n : Nat) (sid : Nat) :
    indiv_calculation cp Je shapeV di ds xi n sid = none ↔ cp sid = none := by
  cases h : cp sid <;> simp [indiv_calculation, h]

theorem stackSpec_none_iff (l : List (List ℚ × ℚ)) :
    stackSpec l = (none, none) ↔ l = [] := by
  by_cases h : l = [] <;> simp [stackSpec, h]

/-- C7: when `closest_point` reports no interaction for every link/shape
pair along the path, `link_collision_damper` returns the non-error
no-active-constraint outcome `(None, None)` — and this happens only then;
in general the returned matrix stacks, in iteration order, exactly the rows
of the interacting pairs. -/
theorem link_collision_damper_rows (links : List Link)
    (cp : Nat → Option CPRes) (Je : Nat → List V6) (shapeV : V6)
    (di ds xi : ℚ) (n : Nat) :
    (link_collision_damper links cp Je shapeV di ds xi n = (none, none) ↔
      ∀ sid ∈ links.bind (fun lk => lk.collision), cp sid = none) ∧
    link_collision_damper links cp Je shapeV di ds xi n =
      stackSpec ((links.bind (fun lk => lk.collision)).filterMap
        (indiv_calculation cp Je shapeV di ds xi n)) := by
  have hfold := damper_fold_spec
    (indiv_calculation cp Je shapeV di ds xi n)
    (links.bind (fun lk => lk.collision))
  constructor
  · rw [link_collision_damper, hfold, stackSpec_none_iff,
      List.filterMap_eq_nil]
    constructor
    · intro h sid hs
      exact (indiv_none_iff cp Je shapeV di ds xi n sid).mp (h sid hs)
    · intro h sid hs
      exact (indiv_none_iff cp Je shapeV di ds xi n sid).mpr (h sid hs)
  · rw [link_collision_damper, hfold]

/-- Demo path for the damper claims: two joint links carrying one collision
shape each (shape ids 0 and 1). -/
def demoDamperLinks : List Link :=
  [ { name := "l1", isjoint := true, jindex := none, parent := none,
      collision := [0] },
    { name := "l2", isjoint := true, jindex := none, parent := some 0,
      collision := [1] } ]

/-- Closest-point oracle reporting no interaction for every shape. -/
def demoCPnone : Nat → Option CPRes := fun _ => none

/-- Closest-point oracle: shape 1 interacts exactly at the minimum
clearance `d = ds = 1/10`, shape 0 does not interact. -/
def demoCP : Nat → Option CPRes := fun sid =>
  if sid = 1 then some ⟨1/10, (0, 0, 0), (1/10, 0, 0)⟩ else none

/-- Demo per-shape Jacobian columns (external `jacobe` output). -/
def demoJe : Nat → List V6 :=
  fun _ => [((1, 0, 0), (0, 0, 0)), ((0, 1, 0), (0, 0, 0))]

/-- Demo target-shape spatial velocity `shape.v`. -/
def demoShapeV : V6 := ((1, 2, 3), (0, 0, 0))

/-- Witness for C7: with no interacting pair the damper returns
`(None, None)`, the valid unobstructed outcome. -/
theorem link_collision_damper_rows_witness :
    link_collision_damper demoDamperLinks demoCPnone demoJe demoShapeV
      (3/10) (1/10) 1 2 = (none, none) :=
  (link_collision_damper_rows demoDamperLinks demoCPnone demoJe demoShapeV
    (3/10) (1/10) 1 2).1.mpr (by decide)

/-- C5: every link/shape pair on the path whose `closest_point` query
reports a distance `d` within the influence distance contributes to the
returned bound vector the value `xi * (d - ds) / (di - ds)` plus the
separation direction (zero-padded to six components) dotted into the
target shape's own velocity; when `d = ds` exactly that bound collapses to
`0` plus the projected target-velocity term. -/
theorem link_collision_damper_bound (links : List Link)
    (cp : Nat → Option CPRes) (Je : Nat → List V6) (shapeV : V6)
    (di ds xi : ℚ) (n : Nat) (sid : Nat) (res : CPRes)
    (hmem : sid ∈ links.bind (fun lk => lk.collision))
    (hcp : cp sid = some res) :
    ∃ bs, (link_collision_damper links cp Je shapeV di ds xi n).2 = some bs ∧
      (xi * (res.d - ds) / (di - ds) +
        dot6 (smul3 (1 / res.d) (vsub res.wTcp res.wTlp), v3zero) shapeV) ∈ bs ∧
      (res.d = ds →
        xi * (res.d - ds) / (di - ds) +
            dot6 (smul3 (1 / res.d) (vsub res.wTcp res.wTlp), v3zero) shapeV =
          0 + dot6 (smul3 (1 / res.d) (vsub res.wTcp res.wTlp), v3zero) shapeV) := by
  have hindiv : indiv_calculation cp Je shapeV di ds xi n sid =
      some (((Je sid).map
          (fun col => dot6 (smul3 (1 / res.d) (vsub res.wTcp res.wTlp), v3zero) col)) ++
          List.replicate (n - (Je sid).length) 0,
        xi * (res.d - ds) / (di - ds) +
          dot6 (smul3 (1 / res.d) (vsub res.wTcp res.wTlp), v3zero) shapeV) := by
    rw [indiv_calculation, hcp]
  have hin : (((Je sid).map
      (fun col => dot6 (smul3 (1 / res.d) (vsub res.wTcp res.wTlp), v3zero) col)) ++
      List.replicate (n - (Je sid).length) 0,
      xi * (res.d - ds) / (di - ds) +
        dot6 (smul3 (1 / res.d) (vsub res.wTcp res.wTlp), v3zero) shapeV) ∈
      (links.bind (fun lk => lk.collision)).filterMap
        (indiv_calculation cp Je shapeV di ds xi n) :=
    List.mem_filterMap.mpr ⟨sid, hmem, hindiv⟩
  have hne : (links.bind (fun lk => lk.collision)).filterMap
      (indiv_calculation cp Je shapeV di ds xi n) ≠ [] :=
    List.ne_nil_of_mem hin
  have hstack : link_collision_damper links cp Je shapeV di ds xi n =
      stackSpec ((links.bind (fun lk => lk.collision)).filterMap
        (indiv_calculation cp Je shapeV di ds xi n)) := by
    rw [link_collision_damper]
    exact damper_fold_spec (indiv_calculation cp Je shapeV di ds xi n)
      (links.bind (fun lk => lk.collision))
  refine ⟨((links.bind (fun lk => lk.collision)).filterMap
      (indiv_calculation cp Je shapeV di ds xi n)).map Prod.snd, ?_, ?_, ?_⟩
  · rw [hstack, stackSpec, if_neg hne]
  · exact List.mem_map.mpr ⟨_, hin, rfl⟩
  · intro hd
    rw [hd]
    simp

/-- Witness for C5: shape 1 interacts at exactly `d = ds = 1/10` (with
`di = 3/10`, `xi = 1`), so its bound is `0` plus the separation direction
dotted into the target velocity. -/
theorem link_collision_damper_bound_witness :
    1 ∈ demoDamperLinks.bind (fun lk => lk.collision) ∧
    demoCP 1 = some ⟨1/10, (0, 0, 0), (1/10, 0, 0)⟩ ∧
    ∃ bs, (link_collision_damper demoDamperLinks demoCP demoJe demoShapeV
        (3/10) (1/10) 1 2).2 = some bs ∧
      ((1 : ℚ) * ((1/10 : ℚ) - 1/10) / ((3/10 : ℚ) - 1/10) +
        dot6 (smul3 (1 / (1/10 : ℚ)) (vsub (1/10, 0, 0) (0, 0, 0)), v3zero)
          demoShapeV) ∈ bs ∧
      ((1/10 : ℚ) = 1/10 →
        (1 : ℚ) * ((1/10 : ℚ) - 1/10) / ((3/10 : ℚ) - 1/10) +
            dot6 (smul3 (1 / (1/10 : ℚ)) (vsub (1/10, 0, 0) (0, 0, 0)), v3zero)
              demoShapeV =
          0 + dot6 (smul3 (1 / (1/10 : ℚ)) (vsub (1/10, 0, 0) (0, 0, 0)), v3zero)
            demoShapeV) :=
  ⟨by decide, by simp [demoCP],
    link_collision_damper_bound demoDamperLinks demoCP demoJe demoShapeV
      (3/10) (1/10) 1 2 1 ⟨1/10, (0, 0, 0), (1/10, 0, 0)⟩ (by decide)
      (by simp [demoCP])⟩

/-- Symbolic spatial-algebra expressions for `ERobot.rne` (lines 801-883).
Atoms record exactly which data of which link enters a quantity:
`A i` is `self.links[i].A(q[i])` (the full transform of the link at
position `i`), `Ts i` is `self.links[i].Ts` (the constant part folded into
`Xtree` during preprocessing), `sj j`, `qdv j`, `qddv j` are `s[j]`,
`qd[j]`, `qdd[j]` for joint counter `j`, `inertia j` is
`SpatialInertia(m=link.m, r=link.r)` of the `j`-th joint link, `grav` is
the virtual base acceleration `a_grav`, and `one` is `SE3()`.  The
combinators mirror the spatial-vector operations used by the source
(`einv` = `.inv()`, `emul` = `*`, `eadd` = `+`, `ecross` = `@`,
`escale` = scalar scaling, `edot` = `sum(f.A * s)`). -/
inductive Ex where
  | grav : Ex
  | one : Ex
  | sj (j : Nat) : Ex
  | qdv (j : Nat) : Ex
  | qddv (j : Nat) : Ex
  | A (i : Nat) : Ex
  | Ts (i : Nat) : Ex
  | inertia (j : Nat) : Ex
  | einv (e : Ex) : Ex
  | emul (a b : Ex) : Ex
  | eadd (a b : Ex) : Ex
  | ecross (a b : Ex) : Ex
  | escale (a b : Ex) : Ex
  | edot (a b : Ex) : Ex
deriving DecidableEq

/-- Whether an expression mentions any static link transform `Ts i` (the
only atoms through which the folded `Xtree` data could flow). -/
def usesTs : Ex → Bool
  | .Ts _ => true
  | .einv e => usesTs e
  | .emul a b => usesTs a || usesTs b
  | .eadd a b => usesTs a || usesTs b
  | .ecross a b => usesTs a || usesTs b
  | .escale a b => usesTs a || usesTs b
  | .edot a b => usesTs a || usesTs b
  | _ => false

/-- Whether an expression mentions the full transform `A i` of link `i`. -/
def usesA (i : Nat) : Ex → Bool
  | .A k => decide (k = i)
  | .einv e => usesA i e
  | .emul a b => usesA i a || usesA i b
  | .eadd a b => usesA i a || usesA i b
  | .ecross a b => usesA i a || usesA i b
  | .escale a b => usesA i a || usesA i b
  | .edot a b => usesA i a || usesA i b
  | _ => false

/-- Number of joint links, `self.n`. -/
def njoints (links : List Link) : Nat :=
  (links.filter (fun lk => lk.isjoint)).length

/-- Preprocessing loop of `rne` (lines 830-849): scan the links in order,
accumulating the static transform `Ts` of non-joint links; at each joint
link, `Xtree[j] = Ts * SE3(link.Ts)` is recorded and the accumulator is
reset to `SE3()`.  The enumeration pairs each link with its position so
that its `Ts` atom is identifiable. -/
def preAux : List (Nat × Link) → Ex → List Ex → List Ex
  | [], _, acc => acc.reverse
  | (i, lk) :: rest, ts, acc =>
      if lk.isjoint then preAux rest Ex.one (Ex.emul ts (Ex.Ts i) :: acc)
      else preAux rest (Ex.emul ts (Ex.Ts i)) acc

/-- The `Xtree` array computed by the preprocessing pass of `rne`. -/
def rneXtree (links : List Link) : List Ex :=
  preAux links.enum Ex.one []

/-- The parent joint index `jp = self.links[j].parent.jindex` used by the
forward and backward recursions of `rne` (lines 863-881): `none` when
`self.links[j].parent is None`.  Note the positional indexing: `j` is the
joint counter but indexes the full link list.  A parent without a `jindex`
is modelled as index `0` (the Python code would fail there; the claims only
evaluate it where `jindex` is set). -/
def parentJof (links : List Link) (j : Nat) : Option Nat :=
  match (links.get? j).bind (fun lk => lk.parent) with
  | none => none
  | some p => some (((links.get? p).bind (fun lk => lk.jindex)).getD 0)

/-- Transform used by the forward recursion at step `j`:
`Xup[j] = SE3(self.links[j].A(q[j])).inv()` (line 861). -/
def XupE (j : Nat) : Ex := Ex.einv (Ex.A j)

/-- Joint-space velocity contribution `vJ = SpatialVelocity(s[j] * qd[j])`. -/
def vJE (j : Nat) : Ex := Ex.escale (Ex.sj j) (Ex.qdv j)

/-- Spatial velocity of step `j`: `v[j] = Xup[j] * v[jp] + vJ`, or `vJ`
alone when the link's parent is `None` (lines 863-868). -/
def vE (links : List Link) (j : Nat) (v : List Ex) : Ex :=
  match parentJof links j with
  | none => vJE j
  | some jp => Ex.eadd (Ex.emul (XupE j) (v.getD jp Ex.one)) (vJE j)

/-- Spatial acceleration of step `j`:
`a[j] = Xup[j] * a[jp] + SpatialAcceleration(s[j] * qdd[j]) + v[j] @ vJ`,
or `Xup[j] * a_grav + SpatialAcceleration(s[j] * qdd[j])` at the base
(lines 865-869). -/
def aE (links : List Link) (j : Nat) (a : List Ex) (vj : Ex) : Ex :=
  match parentJof links j with
  | none =>
      Ex.eadd (Ex.emul (XupE j) Ex.grav) (Ex.escale (Ex.sj j) (Ex.qddv j))
  | some jp =>
      Ex.eadd
        (Ex.eadd (Ex.emul (XupE j) (a.getD jp Ex.one))
          (Ex.escale (Ex.sj j) (Ex.qddv j)))
        (Ex.ecross vj (vJE j))

/-- Spatial force of step `j`:
`f[j] = I[j] * a[j] + v[j] @ (I[j] * v[j])` (line 871). -/
def fE (j : Nat) (vj aj : Ex) : Ex :=
  Ex.eadd (Ex.emul (Ex.inertia j) aj)
    (Ex.ecross vj (Ex.emul (Ex.inertia j) vj))

/-- Forward recursion of `rne` (lines 856-871) run for `k` steps, returning
the arrays `(v, a, f, Xup)` as expression lists. -/
def rneFwd (links : List Link) : Nat → List Ex × List Ex × List Ex × List Ex
  | 0 => ([], [], [], [])
  | j + 1 =>
      let st := rneFwd links j
      (st.1 ++ [vE links j st.1],
       st.2.1 ++ [aE links j st.2.1 (vE links j st.1)],
       st.2.2.1 ++ [fE j (vE links j st.1) (aE links j st.2.1 (vE links j st.1))],
       st.2.2.2 ++ [XupE j])

/-- Backward recursion of `rne` (lines 873-881), processing joint counters
`j = k-1, …, 0`: `Q[j] = sum(f[j].A * s[j])` is taken from the current `f`
before `f[jp] = f[jp] + Xup[j] * f[j]` updates the parent entry. -/
def rneBwd (links : List Link) : Nat → List Ex → List Ex → List Ex × List Ex
  | 0, f, Q => (f, Q)
  | j + 1, f, Q =>
      match parentJof links j with
      | none =>
          rneBwd links j f (Ex.edot (f.getD j Ex.one) (Ex.sj j) :: Q)
      | some jp =>
          rneBwd links j
            (f.set jp (Ex.eadd (f.getD jp Ex.one)
              (Ex.emul (XupE j) (f.getD j Ex.one))))
            (Ex.edot (f.getD j Ex.one) (Ex.sj j) :: Q)

/-- The joint generalized-force vector `Q` returned by `rne`, as symbolic
expressions over the atoms of `Ex`. -/
def rneQ (links : List Link) : List Ex :=
  (rneBwd links (njoints links) (rneFwd links (njoints links)).2.2.1 []).2

/-- The `Xup` array actually used by the recursion of `rne`. -/
def rneXup (links : List Link) : List Ex :=
  (rneFwd links (njoints links)).2.2.2

theorem getD_noTs : ∀ (l : List Ex) (i : Nat) (d : Ex),
    (∀ e ∈ l, usesTs e = false) → usesTs d = false →
    usesTs (l.getD i d) = false := by
  intro l
  induction l with
  | nil => intro i d _ hd; simpa [List.getD] using hd
  | cons x xs ih =>
    intro i d h hd
    cases i with
    | zero => simpa [List.getD] using h x (List.mem_cons_self x xs)
    | succ i =>
      rw [List.getD_cons_succ]
      exact ih i d (fun e he => h e (List.mem_cons_of_mem x he)) hd

theorem getD_noTs_elem (l : List Ex) (i : Nat) (d : Ex)
    (h : ∀ e ∈ l, usesTs e = false) (hd : usesTs d = false) :
    usesTs ((l[i]?).getD d) = false := by
  rw [← List.getD_eq_getElem?_getD]
  exact getD_noTs l i d h hd

theorem usesTs_vE (links : List Link) (j : Nat) (v : List Ex)
    (hv : ∀ e ∈ v, usesTs e = false) : usesTs (vE links j v) = false := by
  cases hp : parentJof links j with
  | none => simp [vE, hp, usesTs, vJE]
  | some jp =>
    simp [vE, hp, usesTs, XupE, vJE]
    exact getD_noTs_elem v jp Ex.one hv rfl

theorem usesTs_aE (links : List Link) (j : Nat) (a : List Ex) (vj : Ex)
    (ha : ∀ e ∈ a, usesTs e = false) (hvj : usesTs vj = false) :
    usesTs (aE links j a vj) = false := by
  cases hp : parentJof links j with
  | none => simp [aE, hp, usesTs, XupE]
  | some jp =>
    simp [aE, hp, usesTs, XupE, vJE, hvj]
    exact getD_noTs_elem a jp Ex.one ha rfl

theorem usesTs_fE (j : Nat) (vj aj : Ex) (hvj : usesTs vj = false)
    (haj : usesTs aj = false) : usesTs (fE j vj aj) = false := by
  simp [fE, usesTs, hvj, haj]

theorem rneFwd_noTs (links : List Link) :
    ∀ k, (∀ e ∈ (rneFwd links k).1, usesTs e = false) ∧
      (∀ e ∈ (rneFwd links k).2.1, usesTs e = false) ∧
      (∀ e ∈ (rneFwd links k).2.2.1, usesTs e = false) := by
  intro k
  induction k with
  | zero =>
    refine ⟨?_, ?_, ?_⟩ <;> intro e he <;> simp [rneFwd] at he
  | succ j ih =>
    obtain ⟨ihv, iha, ihf⟩ := ih
    have hv : usesTs (vE links j (rneFwd links j).1) = false :=
      usesTs_vE links j _ ihv
    have ha : usesTs (aE links j (rneFwd links j).2.1
        (vE links j (rneFwd links j).1)) = false :=
      usesTs_aE links j _ _ iha hv
    have hf : usesTs (fE j (vE links j (rneFwd links j).1)
        (aE links j (rneFwd links j).2.1 (vE links j (rneFwd links j).1))) =
        false := usesTs_fE j _ _ hv ha
    refine ⟨?_, ?_, ?_⟩ <;> intro e he
    · rw [show (rneFwd links (j + 1)).1 =
          (rneFwd links j).1 ++ [vE links j (rneFwd links j).1] from rfl] at he
      rcases List.mem_append.mp he with h | h
      · exact ihv e h
      · rw [List.mem_singleton.mp h]; exact hv
    · rw [show (rneFwd links (j + 1)).2.1 =
          (rneFwd links j).2.1 ++ [aE links j (rneFwd links j).2.1
            (vE links j (rneFwd links j).1)] from rfl] at he
      rcases List.mem_append.mp he with h | h
      · exact iha e h
      · rw [List.mem_singleton.mp h]; exact ha
    · rw [show (rneFwd links (j + 1)).2.2.1 =
          (rneFwd links j).2.2.1 ++ [fE j (vE links j (rneFwd links j).1)
            (aE links j (rneFwd links j).2.1
              (vE links j (rneFwd links j).1))] from rfl] at he
      rcases List.mem_append.mp he with h | h
      · exact ihf e h
      · rw [List.mem_singleton.mp h]; exact hf

theorem rneBwd_noTs (links : List Link) :
    ∀ k (f Q : List Ex), (∀ e ∈ f, usesTs e = false) →
      (∀ e ∈ Q, usesTs e = false) →
      ∀ e ∈ (rneBwd links k f Q).2, usesTs e = false := by
  intro k
  induction k with
  | zero => intro f Q _ hQ e he; exact hQ e he
  | succ j ih =>
    intro f Q hf hQ e he
    have hQj : usesTs (Ex.edot (f.getD j Ex.one) (Ex.sj j)) = false := by
      simp [usesTs]
      exact getD_noTs_elem f j Ex.one hf rfl
    have hQcons : ∀ x ∈ Ex.edot (f.getD j Ex.one) (Ex.sj j) :: Q,
        usesTs x = false := by
      intro x hx
      rcases List.mem_cons.mp hx with h | h
      · rw [h]; exact hQj
      · exact hQ x h
    cases hp : parentJof links j with
    | none =>
      have heq : rneBwd links (j + 1) f Q =
          rneBwd links j f (Ex.edot (f.getD j Ex.one) (Ex.sj j) :: Q) := by
        rw [rneBwd, hp]
      rw [heq] at he
      exact ih f _ hf hQcons e he
    | some jp =>
      have hset : ∀ x ∈ f.set jp (Ex.eadd (f.getD jp Ex.one)
          (Ex.emul (XupE j) (f.getD j Ex.one))), usesTs x = false := by
        intro x hx
        rcases List.mem_or_eq_of_mem_set hx with h | h
        · exact hf x h
        · rw [h]
          simp [usesTs, XupE]
          exact ⟨getD_noTs_elem f jp Ex.one hf rfl, getD_noTs_elem f j Ex.one hf rfl⟩
      have heq : rneBwd links (j + 1) f Q =
          rneBwd links j (f.set jp (Ex.eadd (f.getD jp Ex.one)
            (Ex.emul (XupE j) (f.getD j Ex.one))))
            (Ex.edot (f.getD j Ex.one) (Ex.sj j) :: Q) := by
        rw [rneBwd, hp]
      rw [heq] at he
      exact ih _ _ hset hQcons e he

theorem rneFwd_xup (links : List Link) :
    ∀ k, (rneFwd links k).2.2.2 =
      (List.range k).map (fun j => Ex.einv (Ex.A j)) := by
  intro k
  induction k with
  | zero => rfl
  | succ j ih =>
    rw [show (rneFwd links (j + 1)).2.2.2 =
        (rneFwd links j).2.2.2 ++ [XupE j] from rfl, ih, List.range_succ]
    simp [XupE]

/-- Two-link robot for the rne claims: a fixed (non-joint) base link at
position 0 followed by one joint link at position 1 with `jindex = 0`. -/
def demoRneLinks : List Link :=
  [ { name := "base0", isjoint := false, jindex := none, parent := none,
      collision := [] },
    { name := "j1", isjoint := true, jindex := some 0, parent := some 0,
      collision := [] } ]

/-- Counterexample to C4 at `demoRneLinks` (a robot with one fixed link
preceding its single joint): the preprocessing does fold the fixed link's
transform into `Xtree[0]` (first conjunct), but the generalized force
`Q[0]` computed by the recursion mentions no static transform `Ts` at all
(so the folded `Xtree` cannot influence it), does not mention the joint
link's own transform `A 1`, and instead is built from `A 0` — the
transform of the fixed link, indexed positionally by the joint counter.
Hence the forward recursion does not use "that joint's transform", and the
computed joint forces do not account for the intervening fixed link, contrary
to the claim. -/
theorem rne_fixed_link_counterexample :
    usesTs ((rneXtree demoRneLinks).getD 0 Ex.one) = true ∧
    (rneQ demoRneLinks).length = 1 ∧
    usesTs ((rneQ demoRneLinks).getD 0 Ex.one) = false ∧
    usesA 1 ((rneQ demoRneLinks).getD 0 Ex.one) = false ∧
    usesA 0 ((rneQ demoRneLinks).getD 0 Ex.one) = true := by
  decide

/-- C4 (amended): `rne` folds the static transforms of fixed links into
`Xtree` during preprocessing, but the recursion never consults `Xtree`: no
output force expression mentions a static transform atom, and the `Xup`
transforms actually used are exactly `links[j].A(q[j]).inv()` for the
positional index `j` — so the computed joint forces account for fixed
links only in the degenerate case where no fixed link precedes a joint
(every link is a joint link and position equals joint counter). -/
theorem rne_no_static_transform (links : List Link) :
    (rneQ links).all (fun e => !usesTs e) = true ∧
    rneXup links = (List.range (njoints links)).map (fun j => Ex.einv (Ex.A j)) := by
  constructor
  · rw [List.all_eq_true]
    intro e he
    rw [rneQ] at he
    have hf := (rneFwd_noTs links (njoints links)).2.2
    have hts := rneBwd_noTs links (njoints links)
      (rneFwd links (njoints links)).2.2.1 [] hf
      (by intro x hx; simp at hx) e he
    simp [hts]
  · rw [rneXup, rneFwd_xup]

/-- Attributes a `BaseERobot` owns after its constructor ran.  The live
body of `BaseERobot.__init__` (lines 127-286) assigns only
`_path_cache = {}`, `_linkdict = {}`, `_n = 0`, `_ee_links = []` and the
local `orlinks = []` that is forwarded to the `Robot` superclass; the
entire tree-building block (naming, parent resolution, base detection,
gripper partitioning, joint-index assignment, qlim table — lines 140-284)
is commented out, so `self._grippers` is never assigned at all (modelled as
the empty list: no `Gripper` object is ever created). -/
structure InitState where
  path_cache : List ((String × String) × PathRes)
  linkdict : List (String × Nat)
  n : Nat
  ee_links : List Nat
  orlinks : List Nat
  grippers : List GripperM
deriving DecidableEq

/-- Transliteration of the live (non-commented) body of
`BaseERobot.__init__(links, gripper_links, checkjindex)`: every input is
ignored and the superclass receives an empty ordered link list. -/
def BaseERobot_init (links : List Link) (gripper_links : List Nat)
    (checkjindex : Bool) : InitState :=
  { path_cache := [], linkdict := [], n := 0, ee_links := [],
    orlinks := [], grippers := [] }

/-- Two-joint sequential chain handed to the constructor for C6. -/
def demoInitLinks : List Link :=
  [ { name := "link1", isjoint := true, jindex := none, parent := none,
      collision := [] },
    { name := "link2", isjoint := true, jindex := none, parent := some 0,
      collision := [] } ]

/-- C6 failing-input evaluation: the constructor body drops its `links`
argument — the ordered link sequence it produces is empty and the joint
count is 0, although the input chain has 2 joints; no joint index
`0 … n-1` is ever assigned (the links' `jindex` fields are never written),
contradicting the documented auto-assignment in depth-first order. -/
theorem BaseERobot_init_drops_links :
    BaseERobot_init demoInitLinks [] true =
      { path_cache := [], linkdict := [], n := 0, ee_links := [],
        orlinks := [], grippers := [] } ∧
    (BaseERobot_init demoInitLinks [] true).orlinks = [] ∧
    (BaseERobot_init demoInitLinks [] true).n = 0 ∧
    njoints demoInitLinks = 2 := by
  decide

/-- Three-joint chain whose last link (index 2, one joint) is designated as
a gripper root for C8. -/
def demoGripLinks : List Link :=
  [ { name := "l0", isjoint := true, jindex := none, parent := none,
      collision := [] },
    { name := "l1", isjoint := true, jindex := none, parent := some 0,
      collision := [] },
    { name := "g0", isjoint := true, jindex := none, parent := some 1,
      collision := [] } ]

/-- C8 failing-input evaluation: with link 2 designated as a gripper root
(its sub-tree holds 1 joint, the whole collection 3), the constructor
creates no `Gripper` object, removes nothing, and reports `n = 0` instead
of the claimed `3 - 1 = 2`; the gripper links are not stored anywhere. -/
theorem BaseERobot_init_no_gripper_partition :
    (BaseERobot_init demoGripLinks [2] true).grippers = [] ∧
    (BaseERobot_init demoGripLinks [2] true).orlinks = [] ∧
    (BaseERobot_init demoGripLinks [2] true).n = 0 ∧
    njoints demoGripLinks = 3 := by
  decide

/-- Kinds of value accepted by `_get_limit_links` for the `end` / `start`
arguments: a Link reference, a name string, or a Gripper object. -/
inductive Designator where
  | link (i : Nat) : Designator
  | name (s : String) : Designator
  | gripper (g : GripperM) : Designator
deriving DecidableEq

/-- The Python test `end == gripper or end == gripper.name` (line 369): a
Gripper argument matches the gripper itself, a string matches its name, and
a Link reference matches neither. -/
def gripperMatch (d : Designator) (g : GripperM) : Bool :=
  match d with
  | .link _ => false
  | .name s => decide (s = g.name)
  | .gripper g2 => decide (g2 = g)

/-- Modelled from the spec: `Robot._getlink` lives in the `Robot` base
class, which is not part of this repository slice; per the spec (section
4.2), `start`/`end` may be given as a Link reference, a name, or (for
`end`) a Gripper, and resolution yields a valid link of the tree — for a
Gripper, its root link `gripper.links[0]`. -/
def getlink (r : ERobotM) : Designator → Option Nat
  | .link i => if i < r.links.length then some i else none
  | .name s =>
      (List.range r.links.length).find? (fun i => decide (nameOf r i = s))
  | .gripper g => g.links.head?

/-- Start-link resolution of `_get_limit_links` (lines 376-383): default to
the base link, otherwise resolve the designator. -/
def startResOf (r : ERobotM) (startA : Option Designator) : Option Nat :=
  match startA with
  | none => some r.base_link
  | some ds => getlink r ds

/-- The gripper-tool scan of `_get_limit_links` (lines 367-370): `tool`
starts as `None` and each gripper matching `end` overwrites it. -/
def toolOf (r : ERobotM) (d : Designator) : Option Tool :=
  r.grippers.foldl
    (fun t g2 => if gripperMatch d g2 then some g2.tool else t) none

/-- Transliteration of `BaseERobot._get_limit_links` (lines 316-385).  With
`end` omitted, the first gripper (or else the first end-effector link) is
chosen, together with its tool; with `end` given, the gripper list is
scanned for a tool match and the designator is resolved via `_getlink`.
The ambiguity warnings are prints and have no effect on the value. -/
def get_limit_links (r : ERobotM) (endA startA : Option Designator) :
    Option (Nat × Nat × Option Tool) :=
  match endA with
  | none =>
      match r.grippers with
      | g0 :: _ =>
          match g0.links.head? with
          | none => none
          | some e => (startResOf r startA).map (fun s => (e, s, some g0.tool))
      | [] =>
          match r.ee_links.head? with
          | none => none
          | some e => (startResOf r startA).map (fun s => (e, s, none))
  | some d =>
      match getlink r d with
      | none => none
      | some e => (startResOf r startA).map (fun s => (e, s, toolOf r d))

/-- Resolution plus path computation: `_get_limit_links` followed by
`get_path`, as `get_path` itself performs on lines 510 and onwards. -/
def get_path_resolved (r : ERobotM)
    (cache : List ((String × String) × PathRes))
    (endA startA : Option Designator) :
    Option (PathRes × List ((String × String) × PathRes) × Bool) :=
  match get_limit_links r endA startA with
  | none => none
  | some (e, s, tool) => get_path r cache e s tool

theorem foldTool_keep (g : GripperM) :
    ∀ gs : List GripperM,
      gs.foldl (fun t g2 => if gripperMatch (Designator.gripper g) g2
        then some g2.tool else t) (some g.tool) = some g.tool := by
  intro gs
  induction gs with
  | nil => rfl
  | cons h rest ih =>
    simp only [List.foldl_cons]
    by_cases hm : gripperMatch (Designator.gripper g) h
    · have hgh : g = h := of_decide_eq_true hm
      rw [if_pos hm, ← hgh]
      exact ih
    · rw [if_neg hm]
      exact ih

theorem toolOf_gripper (r : ERobotM) (g : GripperM) (hg : g ∈ r.grippers) :
    toolOf r (Designator.gripper g) = some g.tool := by
  rw [toolOf]
  have hgen : ∀ (gs : List GripperM) (acc : Option Tool), g ∈ gs →
      gs.foldl (fun t g2 => if gripperMatch (Designator.gripper g) g2
        then some g2.tool else t) acc = some g.tool := by
    intro gs
    induction gs with
    | nil => intro acc h; simp at h
    | cons h rest ih =>
      intro acc hmem
      simp only [List.foldl_cons]
      by_cases hm : gripperMatch (Designator.gripper g) h
      · have hgh : g = h := of_decide_eq_true hm
        rw [if_pos hm, ← hgh]
        exact foldTool_keep g rest
      · rw [if_neg hm]
        rcases List.mem_cons.mp hmem with he | hmem2
        · exfalso
          apply hm
          rw [← he]
          exact decide_eq_true rfl
        · exact ih acc hmem2
  exact hgen r.grippers none hg

theorem toolOf_link (r : ERobotM) (i : Nat) :
    toolOf r (Designator.link i) = none := by
  rw [toolOf]
  induction r.grippers with
  | nil => rfl
  | cons h rest ih => simp only [List.foldl_cons, gripperMatch]; exact ih

/-- C9: path resolution accepts `end` given as a Gripper: it resolves to
that gripper's root link and the resulting tuple carries the gripper's
fixed tool transform; when `end` is given as a plain Link reference (which
matches no gripper), the tool slot of `_get_limit_links` stays `None` and
`get_path` substitutes the identity transform. -/
theorem get_limit_links_gripper_tool (r : ERobotM) (g : GripperM)
    (e0 i : Nat) (hg : g ∈ r.grippers) (hroot : g.links.head? = some e0)
    (hi : i < r.links.length) :
    get_limit_links r (some (Designator.gripper g)) none =
      some (e0, r.base_link, some g.tool) ∧
    (∀ res c2 w, get_path_resolved r [] (some (Designator.gripper g)) none =
      some (res, c2, w) → res.tool = g.tool) ∧
    get_limit_links r (some (Designator.link i)) none =
      some (i, r.base_link, none) ∧
    (∀ res c2 w, get_path_resolved r [] (some (Designator.link i)) none =
      some (res, c2, w) → res.tool = toolId) := by
  have h1 : get_limit_links r (some (Designator.gripper g)) none =
      some (e0, r.base_link, some g.tool) := by
    rw [get_limit_links, getlink, hroot, startResOf, toolOf_gripper r g hg]
    rfl
  have h3 : get_limit_links r (some (Designator.link i)) none =
      some (i, r.base_link, none) := by
    rw [get_limit_links, getlink, if_pos hi, startResOf, toolOf_link]
    rfl
  refine ⟨h1, ?_, h3, ?_⟩
  · intro res c2 w h
    have h2 : get_path_resolved r [] (some (Designator.gripper g)) none =
        get_path r [] e0 r.base_link (some g.tool) := by
      rw [get_path_resolved, h1]
    rw [h2] at h
    cases hw : walkPath r e0 r.base_link with
    | none =>
      rw [get_path, lookupC_nil, hw] at h
      exact Option.noConfusion h
    | some pn =>
      obtain ⟨p, n⟩ := pn
      have hval : get_path r [] e0 r.base_link (some g.tool) =
          some (⟨p, n, (some g.tool).getD toolId⟩,
            [((nameOf r r.base_link, nameOf r e0),
              ⟨p, n, (some g.tool).getD toolId⟩)], true) := by
        rw [get_path, lookupC_nil, hw]
      have heq := hval.symm.trans h
      simp only [Option.some.injEq, Prod.mk.injEq] at heq
      obtain ⟨hres, -, -⟩ := heq
      rw [← hres]
      rfl
  · intro res c2 w h
    have h4 : get_path_resolved r [] (some (Designator.link i)) none =
        get_path r [] i r.base_link none := by
      rw [get_path_resolved, h3]
    rw [h4] at h
    cases hw : walkPath r i r.base_link with
    | none =>
      rw [get_path, lookupC_nil, hw] at h
      exact Option.noConfusion h
    | some pn =>
      obtain ⟨p, n⟩ := pn
      have hval : get_path r [] i r.base_link none =
          some (⟨p, n, (none : Option Tool).getD toolId⟩,
            [((nameOf r r.base_link, nameOf r i),
              ⟨p, n, (none : Option Tool).getD toolId⟩)], true) := by
        rw [get_path, lookupC_nil, hw]
      have heq := hval.symm.trans h
      simp only [Option.some.injEq, Prod.mk.injEq] at heq
      obtain ⟨hres, -, -⟩ := heq
      rw [← hres]
      rfl

/-- Gripper fixture for the C9 witness. -/
def demoGrip : GripperM := { name := "gr", links := [2], tool := ["Tg"] }

/-- Robot with one gripper whose root is link 2 for the C9 witness. -/
def demoGR : ERobotM :=
  { links :=
      [ { name := "l0", isjoint := true, jindex := none, parent := none,
          collision := [] },
        { name := "l1", isjoint := true, jindex := none, parent := some 0,
          collision := [] },
        { name := "g0", isjoint := false, jindex := none, parent := some 1,
          collision := [] } ],
    grippers := [demoGrip],
    ee_links := [1],
    base_link := 0 }

/-- Witness for C9 on `demoGR`: `end` given as the Gripper resolves to its
root link 2 with the gripper tool, and `end` given as link 0 yields the
`None` tool slot (hence the identity tool after `get_path`). -/
theorem get_limit_links_gripper_tool_witness :
    demoGrip ∈ demoGR.grippers ∧ demoGrip.links.head? = some 2 ∧
    0 < demoGR.links.length ∧
    (get_limit_links demoGR (some (Designator.gripper demoGrip)) none =
      some (2, demoGR.base_link, some demoGrip.tool) ∧
    (∀ res c2 w,
        get_path_resolved demoGR [] (some (Designator.gripper demoGrip)) none =
          some (res, c2, w) → res.tool = demoGrip.tool) ∧
    get_limit_links demoGR (some (Designator.link 0)) none =
      some (0, demoGR.base_link, none) ∧
    (∀ res c2 w,
        get_path_resolved demoGR [] (some (Designator.link 0)) none =
          some (res, c2, w) → res.tool = toolId)) :=
  ⟨by decide, rfl, by decide,
    get_limit_links_gripper_tool demoGR demoGrip 2 0 (by decide) rfl (by decide)⟩

/-- Raw matrix values handed to the `base` setter, 3 x 3 over exact
rationals. -/
abbrev Mat : Type := List (List ℚ)

/-- Modelled check of the external `spatialmath` predicate `SE2.isvalid` on
a raw matrix: a 3 x 3 homogeneous matrix with orthonormal rotation block of
determinant one and last row `[0, 0, 1]` (the translation entries are
unconstrained).  Only its Boolean outcome matters to the setter. -/
def SE2isvalid (m : Mat) : Bool :=
  match m with
  | [[a, b, _], [c, d, _], [g2, h2, w2]] =>
      decide (g2 = 0) && decide (h2 = 0) && decide (w2 = 1) &&
      decide (a * a + c * c = 1) && decide (b * b + d * d = 1) &&
      decide (a * b + c * d = 0) && decide (a * d - b * c = 1)
  | _ => false

/-- A checked `SE2` instance (the result of `SE2(T, check=True)` or a value
that already is an `SE2`). -/
structure SE2M where
  mat : Mat
deriving DecidableEq

/-- Identity pose `SE2()`. -/
def SE2id : SE2M := ⟨[[1, 0, 0], [0, 1, 0], [0, 0, 1]]⟩

/-- Private attributes of an `ERobot2` touched by its `base` property
(lines 919-953): `_base` and `_tool`. -/
structure ERobot2State where
  baseTr : Option SE2M
  toolTr : Option SE2M
deriving DecidableEq

/-- The kinds of value assigned to `robot.base`: `None`, an `SE2`
instance, or a raw array. -/
inductive BaseArg where
  | none : BaseArg
  | se2 (x : SE2M) : BaseArg
  | raw (m : Mat) : BaseArg
deriving DecidableEq

/-- Transliteration of the `base` setter of `ERobot2` (lines 942-953):
`None` is stored into `_base`; an `SE2` instance is stored into `_base`;
any other value passing `SE2.isvalid` is wrapped by `SE2(T, check=True)`
and written into `_tool` — not `_base`; an invalid value falls through
silently (the `raise` branch is unreachable for an `ERobot2` instance). -/
def base_set (s : ERobot2State) : BaseArg → ERobot2State
  | .none => { s with baseTr := none }
  | .se2 x => { s with baseTr := some x }
  | .raw m => if SE2isvalid m then { s with toolTr := some ⟨m⟩ } else s

/-- Transliteration of the `base` getter (lines 919-940): when `_base` is
`None` it is first replaced by `SE2()`, and a copy of `_base` is returned
(copying is value semantics here). -/
def base_get (s : ERobot2State) : SE2M × ERobot2State :=
  match s.baseTr with
  | none => (SE2id, { s with baseTr := some SE2id })
  | some b => (b, s)

/-- C10: assigning to `ERobot2.base` a raw matrix that is not an `SE2`
instance but satisfies `SE2.isvalid` leaves `_base` unchanged and instead
overwrites `_tool` with `SE2(T)`, raising no error; assigning an `SE2`
instance updates `_base`; assigning `None` stores `None`, and the getter
then returns an identity `SE2` copy. -/
theorem base_setter_raw_writes_tool (s : ERobot2State) (m : Mat) (x : SE2M)
    (hv : SE2isvalid m = true) :
    base_set s (BaseArg.raw m) = { s with toolTr := some ⟨m⟩ } ∧
    (base_set s (BaseArg.raw m)).baseTr = s.baseTr ∧
    base_set s (BaseArg.se2 x) = { s with baseTr := some x } ∧
    (base_set s BaseArg.none).baseTr = none ∧
    (base_get (base_set s BaseArg.none)).1 = SE2id := by
  refine ⟨?_, ?_, rfl, rfl, rfl⟩
  · rw [base_set, if_pos hv]
  · rw [base_set, if_pos hv]

/-- Witness for C10 at the identity matrix (a valid SE2 array) assigned to
a robot whose `_base` is the identity and whose `_tool` is unset. -/
theorem base_setter_raw_writes_tool_witness :
    SE2isvalid [[1, 0, 0], [0, 1, 0], [0, 0, 1]] = true ∧
    (base_set ⟨some SE2id, none⟩
        (BaseArg.raw [[1, 0, 0], [0, 1, 0], [0, 0, 1]]) =
      { baseTr := some SE2id,
        toolTr := some ⟨[[1, 0, 0], [0, 1, 0], [0, 0, 1]]⟩ } ∧
    (base_set ⟨some SE2id, none⟩
        (BaseArg.raw [[1, 0, 0], [0, 1, 0], [0, 0, 1]])).baseTr =
      (⟨some SE2id, none⟩ : ERobot2State).baseTr ∧
    base_set ⟨some SE2id, none⟩ (BaseArg.se2 SE2id) =
      { baseTr := some SE2id, toolTr := none } ∧
    (base_set ⟨some SE2id, none⟩ BaseArg.none).baseTr = none ∧
    (base_get (base_set ⟨some SE2id, none⟩ BaseArg.none)).1 = SE2id) := by
  have hv : SE2isvalid [[1, 0, 0], [0, 1, 0], [0, 0, 1]] = true := by
    norm_num [SE2isvalid]
  exact ⟨hv, base_setter_raw_writes_tool ⟨some SE2id, none⟩
    [[1, 0, 0], [0, 1, 0], [0, 0, 1]] SE2id hv⟩
